import Mathlib

/-!
Verification of the ytdlp-http service: a shallow embedding of the
repository's Go sources (internal/utils/files.go, internal/ytdlp/ytdlp.go,
internal/s3 service, internal/server/handler.go and
internal/server/middlewares/auth.go) together with theorems settling the
frozen behavioural claims about it.

Strings are modelled through their character lists; Go `len` and slicing
act on bytes, but every place the source slices or measures a string the
string is all-ASCII (it has just been produced by the sanitizer's
character-for-character replacement), so character counting is faithful.
External effects (the filesystem, the yt-dlp process, the S3 client) are
modelled by explicit outcome parameters and an explicit storage state.
-/

set_option maxHeartbeats 1000000

/-! ## Path helpers (Go path/filepath and strings, as used by the sources) -/

/-- One step of Go `filepath.Ext`'s backwards scan. The input list is the
path's characters reversed; `acc` holds the characters already scanned, in
original order. `filepath.Ext` returns the suffix starting at the final dot
of the final path element, and the empty string when that element has no
dot. -/
def extRevAux : List Char → List Char → List Char
  | _, [] => []
  | acc, c :: rest =>
    if c = '/' then []
    else if c = '.' then '.' :: acc
    else extRevAux (c :: acc) rest

/-- Go `filepath.Ext`: the file-name extension of `p`, i.e. the suffix
beginning at the final dot in the final slash-separated element of `p`. -/
def filepathExt (p : String) : String :=
  String.mk (extRevAux [] p.data.reverse)

/-- Go `strings.HasSuffix`. -/
def hasSuffixStr (s suffix : String) : Bool :=
  List.isSuffixOf suffix.data s.data

/-- Go `strings.TrimSuffix`: drop one trailing copy of `suffix` when present,
else return `s` unchanged. -/
def trimSuffixStr (s suffix : String) : String :=
  if hasSuffixStr s suffix then
    String.mk (s.data.take (s.data.length - suffix.data.length))
  else s

/-- Go `strings.Trim(s, cutset)` for a one-character cutset: remove the
character from both ends. -/
def trimCharList (c : Char) (l : List Char) : List Char :=
  ((l.dropWhile (fun x => x == c)).reverse.dropWhile (fun x => x == c)).reverse

/-- Go `filepath.Base`: the last element of the path, after trailing slashes
are removed; "." for the empty path and "/" for a path of slashes only. -/
def filepathBase (p : String) : String :=
  if p = "" then "."
  else
    let r := p.data.reverse.dropWhile (fun x => x == '/')
    if r = [] then "/"
    else String.mk ((r.takeWhile (fun x => x != '/')).reverse)

/-- ASCII lower-casing of one character (`strings.ToLower` restricted to the
ASCII range, which is all the sources compare against). -/
def asciiLowerChar (c : Char) : Char :=
  if 65 ≤ c.toNat ∧ c.toNat ≤ 90 then Char.ofNat (c.toNat + 32) else c

/-- ASCII lower-casing of a string. -/
def asciiLowerStr (s : String) : String :=
  String.mk (s.data.map asciiLowerChar)

/-! ## internal/utils/files.go -/

/-- A character the sanitizer's character class `[a-zA-Z0-9\-_.]` accepts. -/
def allowedChar (c : Char) : Bool :=
  (decide (97 ≤ c.toNat) && decide (c.toNat ≤ 122)) ||
  (decide (65 ≤ c.toNat) && decide (c.toNat ≤ 90)) ||
  (decide (48 ≤ c.toNat) && decide (c.toNat ≤ 57)) ||
  c == '-' || c == '_' || c == '.'

/-- The regexp replacement `reg.ReplaceAllString(filename, "_")` acts one
character at a time: a character outside the class becomes '_'. -/
def replaceChar (c : Char) : Char :=
  if allowedChar c then c else '_'

/-- The replacement and trimming steps of `SanitizeFilename`, before
truncation and the empty fallback. -/
def sanitizeCore (s : String) : List Char :=
  trimCharList '_' (s.data.map replaceChar)

/-- The truncation step of `SanitizeFilename`: `if len(sanitized) > 100 {
sanitized = sanitized[:100] }` (the string is all-ASCII at this point, so
byte slicing is character slicing). -/
def sanitizeTruncated (s : String) : List Char :=
  if (sanitizeCore s).length > 100 then (sanitizeCore s).take 100
  else sanitizeCore s

/-- `utils.SanitizeFilename`: replace every character outside
`[a-zA-Z0-9\-_.]` with '_', trim '_' from both ends, cut to 100 characters,
and fall back to "file" when the result is empty. -/
def sanitizeFilename (s : String) : String :=
  if sanitizeTruncated s = [] then "file" else String.mk (sanitizeTruncated s)

/-- `utils.GetContentType`: extension → MIME type table, default
`application/octet-stream`. -/
def getContentType (filePath : String) : String :=
  let ext := asciiLowerStr (filepathExt filePath)
  if ext = ".mp4" then "video/mp4"
  else if ext = ".avi" then "video/x-msvideo"
  else if ext = ".mov" then "video/quicktime"
  else if ext = ".wmv" then "video/x-ms-wmv"
  else if ext = ".flv" then "video/x-flv"
  else if ext = ".webm" then "video/webm"
  else if ext = ".mkv" then "video/x-matroska"
  else if ext = ".m4v" then "video/x-m4v"
  else if ext = ".3gp" then "video/3gpp"
  else if ext = ".mp3" then "audio/mpeg"
  else if ext = ".wav" then "audio/wav"
  else if ext = ".flac" then "audio/flac"
  else if ext = ".aac" then "audio/aac"
  else if ext = ".ogg" then "audio/ogg"
  else if ext = ".m4a" then "audio/mp4"
  else if ext = ".opus" then "audio/opus"
  else if ext = ".json" then "application/json"
  else "application/octet-stream"

/-- `utils.GenerateUniqueKey`. The wall clock (`time.Now().Unix()`) and the
random hex string (`hex.EncodeToString` of 4 random bytes) are inputs of the
model; the function builds `<timestamp>_<random>_<sanitized base><ext>`. -/
def generateUniqueKey (timestamp : Int) (randomStr : String)
    (originalFilename : String) : String :=
  let ext := filepathExt originalFilename
  let baseName := trimSuffixStr originalFilename ext
  let safeName := sanitizeFilename baseName
  toString timestamp ++ "_" ++ randomStr ++ "_" ++ safeName ++ ext

/-- `UploadHandler.generateUniqueS3Key` (internal/server/handler.go): give
the requested key the downloaded file's extension when it has none, sanitize
it, and pass it to `GenerateUniqueKey`. -/
def generateUniqueS3Key (timestamp : Int) (randomStr : String)
    (requestedKey filePath : String) : String :=
  let ext := filepathExt filePath
  let requested :=
    if filepathExt requestedKey = "" then requestedKey ++ ext else requestedKey
  let safeName := sanitizeFilename requested
  generateUniqueKey timestamp randomStr safeName

/-! Sanity checks of the embedding on concrete inputs. -/

example : sanitizeFilename "hello world!" = "hello_world" := by decide
example : sanitizeFilename "" = "file" := by decide
example : filepathExt "a/b.mp4" = ".mp4" := by decide
example : filepathExt "dir.x/file" = "" := by decide
example : filepathExt "dir/.json" = ".json" := by decide
example : filepathBase "a/b.mp4" = "b.mp4" := by decide
example : getContentType "x/v.MP4" = "video/mp4" := by decide
example : generateUniqueKey 7 "aabbccdd" "my video.mp4" = "7_aabbccdd_my_video.mp4" := by decide

/-! ## internal/ytdlp/ytdlp.go -/

/-- `ytdlp.VideoInfo`, parsed from the yt-dlp JSON sidecar. -/
structure VideoInfo where
  id : String
  title : String
  duration : Float
  uploader : String
  uploadDate : String
  viewCount : Int
  format : String
  filename : String
  filesize : Int
  url : String
  thumbnail : String
  description : String

/-- One entry of `os.ReadDir`'s result: its name and whether it is a
directory. -/
structure DirEntry where
  name : String
  isDir : Bool
deriving DecidableEq

/-- The sidecar/media scan of `DownloadVideo` (ytdlp.go lines 141-148): one
pass over the directory entries; an entry with extension ".json" is recorded
as the info file, otherwise a non-directory entry is recorded as the video
file, each assignment overwriting the previous one. Files are identified by
their entry name (the source stores `filepath.Join(uniqueDir, name)`; the
directory part is common to all entries). The pair is (infoFile, videoFile),
with "" meaning not found, as in the source's zero-valued strings. -/
def scanStep (acc : String × String) (e : DirEntry) : String × String :=
  if filepathExt e.name = ".json" then (e.name, acc.2)
  else if e.isDir = false then (acc.1, e.name)
  else acc

def scanFiles (entries : List DirEntry) : String × String :=
  entries.foldl scanStep ("", "")

/-- An entry the scan's first branch matches: its name has extension
".json" (the source does not test `IsDir` in this branch). -/
def isJsonEntry (e : DirEntry) : Bool :=
  filepathExt e.name == ".json"

/-- An entry the scan records as the media file: not a ".json" name and not
a directory. -/
def isMediaEntry (e : DirEntry) : Bool :=
  !(isJsonEntry e) && !e.isDir

/-- The effects a single `DownloadVideo` call observes, as outcome
parameters: whether `os.MkdirAll` succeeds, whether the yt-dlp process run
succeeds (`cmd.Run()`; false covers a non-zero exit and context
cancellation alike), whether `os.ReadDir` succeeds and what it returns, and
what `os.ReadFile` of the info file yields (`none` = read error). -/
structure DownloadEnv where
  mkdirOk : Bool
  runOk : Bool
  readDirOk : Bool
  entries : List DirEntry
  infoRead : Option String
deriving DecidableEq

/-- What a `DownloadVideo` call returns together with whether the
per-invocation unique directory still exists when it returns (`os.RemoveAll`
on the failure paths is modelled as effective removal). -/
structure DownloadResult where
  result : Except String (String × Option VideoInfo)
  dirExists : Bool

/-- `ytdlp.Service.DownloadVideo` after argument building: create the unique
directory, run yt-dlp, scan the directory, and read/parse the optional
sidecar. `parse` models `json.Unmarshal` into `VideoInfo` (`none` = parse
error, which the source logs and tolerates). Error strings are the source's
`fmt.Errorf` messages (the wrapped causes elided). -/
def downloadVideo (parse : String → Option VideoInfo) (env : DownloadEnv) :
    DownloadResult :=
  if env.mkdirOk = false then
    { result := .error "failed to create download directory", dirExists := false }
  else if env.runOk = false then
    { result := .error "failed to download video", dirExists := false }
  else if env.readDirOk = false then
    { result := .error "failed to read download directory", dirExists := false }
  else if (scanFiles env.entries).2 = "" then
    { result := .error "video file not found after download", dirExists := false }
  else
    { result := .ok ((scanFiles env.entries).2,
        if (scanFiles env.entries).1 = "" then none
        else
          match env.infoRead with
          | none => none
          | some data => parse data),
      dirExists := true }

/-! ## internal/s3 service -/

/-- `configurations.S3Config`. -/
structure S3Config where
  accessKeyID : String
  secretAccessKey : String
  region : String
  bucket : String
  endpoint : String

/-- `s3.FileUploadResult`. -/
structure FileUploadResult where
  key : String
  bucket : String
  location : String
  etag : String
  size : Int
  contentType : String
  md5Hash : String

/-- `s3.UploadResult`. `uploadedAt` is the abstract clock value of
`time.Now()`. -/
structure UploadResult where
  videoUpload : FileUploadResult
  metadataUpload : FileUploadResult
  totalSize : Int
  uploadedAt : Int

/-- The bucket's state: the set of object keys currently stored, as a
duplicate-free list. -/
abbrev Storage := List String

/-- A successful `PutObject` makes the key present. -/
def putKey (st : Storage) (k : String) : Storage :=
  if k ∈ st then st else k :: st

/-- A successful `DeleteObject` removes the key. -/
def deleteKey (st : Storage) (k : String) : Storage :=
  st.filter (fun x => x ≠ k)

/-- Go int64 two's-complement wrap-around, applied where the source adds
`int64` values. -/
def wrap64 (x : Int) : Int :=
  (x + 2 ^ 63) % 2 ^ 64 - 2 ^ 63

/-- `s3.Service.getMetadataKey`: replace the video key's extension with
".json". -/
def getMetadataKey (videoKey : String) : String :=
  let ext := filepathExt videoKey
  let base := trimSuffixStr videoKey ext
  base ++ ".json"

/-- The effects one `uploadFile` call observes: whether `os.Open`,
`file.Stat`, the MD5 `io.Copy`, the `file.Seek` and the `PutObject` call
succeed, the file's byte size, the hex MD5 digest of its content, and the
raw ETag the storage returns. -/
structure FilePutEnv where
  openOk : Bool
  statOk : Bool
  hashCopyOk : Bool
  seekOk : Bool
  putOk : Bool
  size : Int
  md5Hex : String
  etagRaw : String
deriving DecidableEq

/-- The effects one `uploadMetadata` call observes: whether
`json.MarshalIndent` and the `PutObject` call succeed, the marshalled
document's byte length, its hex MD5 digest, and the raw ETag. -/
structure MetaPutEnv where
  marshalOk : Bool
  putOk : Bool
  jsonLen : Int
  md5Hex : String
  etagRaw : String
deriving DecidableEq

/-- `s3.Service.uploadFile`: open, stat, hash, seek, single-shot put; on
success the key becomes present in the bucket and the result records key,
bucket, synthesized location, quote-stripped ETag, size, content type and
MD5. Error strings are the source's messages. -/
def uploadFile (cfg : S3Config) (env : FilePutEnv) (filePath key : String)
    (st : Storage) : Except String FileUploadResult × Storage :=
  if env.openOk = false then (.error "failed to open file", st)
  else if env.statOk = false then (.error "failed to get file stats", st)
  else if env.hashCopyOk = false then (.error "failed to calculate MD5 hash", st)
  else if env.seekOk = false then (.error "failed to reset file pointer", st)
  else if env.putOk = false then
    (.error "failed to upload to S3-compatible storage", st)
  else
    (.ok
      { key := key
        bucket := cfg.bucket
        location := cfg.endpoint ++ "/" ++ cfg.bucket ++ "/" ++ key
        etag := String.mk (trimCharList '"' env.etagRaw.data)
        size := env.size
        contentType := getContentType filePath
        md5Hash := env.md5Hex },
      putKey st key)

/-- `s3.Service.uploadMetadata`: marshal the metadata document (original
filename, upload timestamp, optional VideoInfo) and put it under `key` with
content type `application/json`. The document's bytes are summarized by
their length and digest in `env`. -/
def uploadMetadata (cfg : S3Config) (env : MetaPutEnv) (key : String)
    (videoInfo : Option VideoInfo) (originalFilename : String)
    (st : Storage) : Except String FileUploadResult × Storage :=
  if env.marshalOk = false then (.error "failed to marshal metadata", st)
  else if env.putOk = false then
    (.error "failed to upload metadata to S3-compatible storage", st)
  else
    (.ok
      { key := key
        bucket := cfg.bucket
        location := cfg.endpoint ++ "/" ++ cfg.bucket ++ "/" ++ key
        etag := String.mk (trimCharList '"' env.etagRaw.data)
        size := env.jsonLen
        contentType := "application/json"
        md5Hash := env.md5Hex },
      putKey st key)

/-- `s3.Service.UploadVideoWithMetadata`: upload the video, derive the
metadata key, upload the metadata; when the metadata upload fails, delete
the just-uploaded video (best effort: `delOk` says whether that
`DeleteFile` call succeeds, its failure is only logged) and surface the
metadata error. On success combine both results, sizes summed. -/
def uploadVideoWithMetadata (cfg : S3Config) (venv : FilePutEnv)
    (menv : MetaPutEnv) (delOk : Bool) (filePath key : String)
    (videoInfo : Option VideoInfo) (st : Storage) (now : Int) :
    Except String UploadResult × Storage :=
  match uploadFile cfg venv filePath key st with
  | (.error e, st1) => (.error ("failed to upload video: " ++ e), st1)
  | (.ok videoResult, st1) =>
    let metadataKey := getMetadataKey key
    match uploadMetadata cfg menv metadataKey videoInfo (filepathBase filePath) st1 with
    | (.error e, st2) =>
      let st3 := if delOk then deleteKey st2 key else st2
      (.error ("failed to upload metadata: " ++ e), st3)
    | (.ok metadataResult, st2) =>
      (.ok
        { videoUpload := videoResult
          metadataUpload := metadataResult
          totalSize := wrap64 (videoResult.size + metadataResult.size)
          uploadedAt := now },
        st2)

/-! ## internal/server/middlewares/auth.go -/

/-- `configurations.AuthConfig`: the enabled flag and the expected SHA-256
hex digest of the API key. -/
structure AuthConfig where
  enabled : Bool
  apiKey : String

/-- What the middleware does with a request: pass it on (`c.Next()`) or
abort it with a 401 JSON body carrying an error code and a message. -/
inductive AuthDecision where
  | next
  | abort401 (error : String) (message : String)
deriving DecidableEq

/-- `strings.SplitN(s, " ", 2)` restricted to what the middleware checks:
`none` when the string has no space (one part), otherwise the part before
the first space and everything after it. -/
def splitFirstSpace : List Char → Option (List Char × List Char)
  | [] => none
  | c :: rest =>
    if c = ' ' then some ([], rest)
    else
      match splitFirstSpace rest with
      | none => none
      | some (a, b) => some (c :: a, b)

/-- The two parts of the Authorization header, when it has a space. -/
def splitAuthHeader (s : String) : Option (String × String) :=
  match splitFirstSpace s.data with
  | none => none
  | some (a, b) => some (String.mk a, String.mk b)

/-- `AuthMiddleware.Authenticate`. `hashKey` models the middleware's
`hashKey` method (the SHA-256 hex digest of its argument); the middleware
only compares its output against the configured digest, string-equal and
case-sensitive. An absent Authorization header is the empty string, as
`c.GetHeader` returns. -/
def authenticate (hashKey : String → String) (cfg : AuthConfig)
    (authHeader : String) : AuthDecision :=
  if cfg.enabled = false then .next
  else if authHeader = "" then
    .abort401 "unauthorized" "Authorization header is required"
  else
    match splitAuthHeader authHeader with
    | none =>
      .abort401 "unauthorized" "Authorization header must be in format: Bearer <token>"
    | some (scheme, providedKey) =>
      if asciiLowerStr scheme ≠ "bearer" then
        .abort401 "unauthorized" "Authorization header must be in format: Bearer <token>"
      else if hashKey providedKey ≠ cfg.apiKey then
        .abort401 "unauthorized" "Invalid API key"
      else .next

/-! Sanity checks of the service layers on concrete inputs. -/

example : getMetadataKey "a/b.mp4" = "a/b.json" := by decide
example : getMetadataKey "a.json" = "a.json" := by decide
example : scanFiles [⟨"v.info.json", false⟩, ⟨"v.mp4", false⟩] = ("v.info.json", "v.mp4") := by
  decide
example :
    authenticate (fun s => s) { enabled := true, apiKey := "k" } "Bearer k" = .next := by
  decide
example :
    authenticate (fun s => s) { enabled := true, apiKey := "k" } "token k" =
      .abort401 "unauthorized" "Authorization header must be in format: Bearer <token>" := by
  decide

/-! ## Lemmas about the path helpers -/

/-- The directory part of a path: everything up to and including the last
slash (empty when the path has no slash), computed on the reversed
character list. -/
def dirPartRev : List Char → List Char
  | [] => []
  | c :: rest => if c = '/' then c :: rest else dirPartRev rest

/-- The directory part of a path, as a string. -/
def dirPart (s : String) : String :=
  String.mk (dirPartRev s.data.reverse).reverse

theorem extRevAux_split (r : List Char) :
    ∀ acc, extRevAux acc r = [] ∨
      ∃ pre, r.reverse ++ acc = pre ++ extRevAux acc r := by
  induction r with
  | nil => intro acc; exact Or.inl rfl
  | cons c rest ih =>
    intro acc
    by_cases hc : c = '/'
    · left; simp [extRevAux, hc]
    · by_cases hd : c = '.'
      · right
        refine ⟨rest.reverse, ?_⟩
        simp [extRevAux, hc, hd]
      · rcases ih (c :: acc) with h | ⟨pre, hpre⟩
        · left; simpa [extRevAux, hc, hd] using h
        · right
          refine ⟨pre, ?_⟩
          simpa [extRevAux, hc, hd] using hpre

theorem extRevAux_no_slash (r : List Char) :
    ∀ acc, (∀ c ∈ acc, c ≠ '/') → ∀ c ∈ extRevAux acc r, c ≠ '/' := by
  induction r with
  | nil => intro acc _ c hc; simp [extRevAux] at hc
  | cons x rest ih =>
    intro acc hacc c hc
    by_cases hx : x = '/'
    · simp [extRevAux, hx] at hc
    · by_cases hd : x = '.'
      · simp [extRevAux, hx, hd] at hc
        rcases hc with rfl | hc
        · decide
        · exact hacc c hc
      · simp only [extRevAux, if_neg hx, if_neg hd] at hc
        refine ih (x :: acc) ?_ c hc
        intro y hy
        rcases List.mem_cons.mp hy with rfl | hy
        · exact hx
        · exact hacc y hy

/-- `filepath.Ext p` is a suffix of `p`. -/
theorem filepathExt_suffix (p : String) :
    ∃ pre, p.data = pre ++ (filepathExt p).data := by
  rcases extRevAux_split p.data.reverse [] with h | ⟨pre, hpre⟩
  · exact ⟨p.data, by simp [filepathExt, h]⟩
  · refine ⟨pre, ?_⟩
    have := hpre
    rw [List.reverse_reverse, List.append_nil] at this
    simpa [filepathExt] using this

/-- `filepath.Ext` never contains a path separator. -/
theorem filepathExt_no_slash (p : String) :
    ∀ c ∈ (filepathExt p).data, c ≠ '/' := by
  intro c hc
  exact extRevAux_no_slash p.data.reverse [] (by simp) c (by simpa [filepathExt] using hc)

/-- Appending ".json" forces the extension ".json", whatever comes before. -/
theorem filepathExt_append_json (b : String) :
    filepathExt (b ++ ".json") = ".json" := by
  unfold filepathExt
  rw [String.data_append, List.reverse_append]
  rfl

/-- `strings.TrimSuffix` undoes an append of the suffix. -/
theorem trimSuffixStr_append (a b : String) : trimSuffixStr (a ++ b) b = a := by
  unfold trimSuffixStr hasSuffixStr
  have hsuf : List.isSuffixOf b.data (a ++ b).data = true := by
    rw [String.data_append]
    exact List.isSuffixOf_iff_suffix.mpr (List.suffix_append a.data b.data)
  rw [hsuf]
  simp only [if_true]
  apply String.ext
  rw [String.data_append, List.length_append]
  have : a.data.length + b.data.length - b.data.length = a.data.length := by omega
  rw [this, List.take_left]

/-- A path is its `TrimSuffix` by its extension, followed by its
extension. -/
theorem trimSuffixStr_ext_append (k : String) :
    trimSuffixStr k (filepathExt k) ++ filepathExt k = k := by
  obtain ⟨pre, hpre⟩ := filepathExt_suffix k
  have hsuf : hasSuffixStr k (filepathExt k) = true := by
    unfold hasSuffixStr
    rw [hpre]
    exact List.isSuffixOf_iff_suffix.mpr (List.suffix_append _ _)
  apply String.ext
  rw [String.data_append]
  unfold trimSuffixStr
  rw [if_pos hsuf]
  show k.data.take (k.data.length - (filepathExt k).data.length)
      ++ (filepathExt k).data = k.data
  conv_lhs => rw [hpre]
  conv_rhs => rw [hpre]
  rw [List.length_append]
  have h : pre.length + (filepathExt k).data.length - (filepathExt k).data.length =
      pre.length := by omega
  rw [h, List.take_left]

theorem dirPartRev_append (x : List Char) (r : List Char)
    (hx : ∀ c ∈ x, c ≠ '/') : dirPartRev (x ++ r) = dirPartRev r := by
  induction x with
  | nil => rfl
  | cons c rest ih =>
    have hc : c ≠ '/' := hx c (by simp)
    simp only [List.cons_append, dirPartRev, if_neg hc]
    exact ih (fun y hy => hx y (List.mem_cons_of_mem c hy))

/-- Appending a slash-free string does not change the directory part. -/
theorem dirPart_append_no_slash (a b : String)
    (hb : ∀ c ∈ b.data, c ≠ '/') : dirPart (a ++ b) = dirPart a := by
  unfold dirPart
  rw [String.data_append, List.reverse_append]
  rw [dirPartRev_append b.data.reverse a.data.reverse
    (fun c hc => hb c (List.mem_reverse.mp hc))]

/-! ## Claim C5 and C10: the metadata-key derivation -/

/-- `getMetadataKey` with its let-bindings reduced. -/
theorem getMetadataKey_def (k : String) :
    getMetadataKey k = trimSuffixStr k (filepathExt k) ++ ".json" := rfl

/-- The metadata key always carries the extension ".json". -/
theorem filepathExt_getMetadataKey (k : String) :
    filepathExt (getMetadataKey k) = ".json" := by
  rw [getMetadataKey_def]
  exact filepathExt_append_json _

/-- Claim C5 (amended): the metadata key derived from a video key keeps the
key's directory part and base name and always carries extension ".json";
hence the two keys are siblings, and their extensions differ exactly when
the video key's extension is not already ".json" (for a ".json" video key
the derived key has the same extension - indeed it equals the video key). -/
theorem getMetadataKey_sibling (k : String) :
    filepathExt (getMetadataKey k) = ".json"
    ∧ dirPart (getMetadataKey k) = dirPart k
    ∧ trimSuffixStr (getMetadataKey k) (filepathExt (getMetadataKey k)) =
        trimSuffixStr k (filepathExt k)
    ∧ (filepathExt k ≠ ".json" → filepathExt (getMetadataKey k) ≠ filepathExt k) := by
  refine ⟨filepathExt_getMetadataKey k, ?_, ?_, ?_⟩
  · have h1 : dirPart (getMetadataKey k) = dirPart (trimSuffixStr k (filepathExt k)) := by
      rw [getMetadataKey_def]
      exact dirPart_append_no_slash _ _ (by decide)
    have h2 : dirPart k = dirPart (trimSuffixStr k (filepathExt k)) := by
      conv_lhs => rw [← trimSuffixStr_ext_append k]
      exact dirPart_append_no_slash _ _ (filepathExt_no_slash k)
    rw [h1, h2]
  · rw [filepathExt_getMetadataKey k, getMetadataKey_def]
    exact trimSuffixStr_append _ _
  · intro hne
    rw [filepathExt_getMetadataKey k]
    exact fun h => hne h.symm

/-- Claim C5 counterexample: for the video key "a.json" the derived metadata
key is "a.json" itself, so the two keys have the same extension (and are the
same object), not different extensions as the claim states. -/
theorem getMetadataKey_json_counterexample :
    getMetadataKey "a.json" = "a.json"
    ∧ filepathExt (getMetadataKey "a.json") = filepathExt "a.json" := by
  constructor
  · decide
  · decide

/-- Claim C10: the metadata-key derivation is idempotent, and a video key
that already ends in ".json" is a fixed point: the metadata object then
targets the very same key as the video object. -/
theorem getMetadataKey_idempotent (k : String) :
    getMetadataKey (getMetadataKey k) = getMetadataKey k
    ∧ (hasSuffixStr k ".json" = true → getMetadataKey k = k) := by
  constructor
  · calc getMetadataKey (getMetadataKey k)
        = trimSuffixStr (getMetadataKey k) (filepathExt (getMetadataKey k)) ++ ".json" :=
          getMetadataKey_def _
      _ = trimSuffixStr (getMetadataKey k) ".json" ++ ".json" := by
          rw [filepathExt_getMetadataKey]
      _ = trimSuffixStr (trimSuffixStr k (filepathExt k) ++ ".json") ".json" ++ ".json" := by
          rw [getMetadataKey_def k]
      _ = trimSuffixStr k (filepathExt k) ++ ".json" := by rw [trimSuffixStr_append]
      _ = getMetadataKey k := (getMetadataKey_def k).symm
  · intro hsuf
    unfold hasSuffixStr at hsuf
    obtain ⟨pre, hpre⟩ := (List.isSuffixOf_iff_suffix.mp hsuf : _ <:+ _)
    have hk : k = String.mk pre ++ ".json" := by
      apply String.ext
      rw [String.data_append]
      exact hpre.symm
    rw [getMetadataKey_def, hk, filepathExt_append_json, trimSuffixStr_append]

/-! ## Claim C3: the filename sanitizer -/

theorem head?_dropWhile_not (p : Char → Bool) :
    ∀ (l : List Char) (a : Char), (l.dropWhile p).head? = some a → p a = false := by
  intro l
  induction l with
  | nil => intro a h; simp [List.dropWhile] at h
  | cons c rest ih =>
    intro a h
    cases hpc : p c with
    | true =>
      rw [List.dropWhile_cons, if_pos hpc] at h
      exact ih a h
    | false =>
      rw [List.dropWhile_cons, if_neg (by simp [hpc])] at h
      simp only [List.head?_cons, Option.some.injEq] at h
      rw [← h]
      exact hpc

theorem getLast?_dropWhile (p : Char → Bool) (l : List Char) :
    l.dropWhile p = [] ∨ (l.dropWhile p).getLast? = l.getLast? := by
  induction l with
  | nil => exact Or.inl rfl
  | cons c rest ih =>
    cases hpc : p c with
    | false =>
      right
      rw [List.dropWhile_cons, if_neg (by simp [hpc])]
    | true =>
      rw [List.dropWhile_cons, if_pos hpc]
      rcases ih with h | h
      · exact Or.inl h
      · cases rest with
        | nil => exact Or.inl rfl
        | cons d t =>
          right
          rw [h, List.getLast?_cons_cons]

theorem mem_trimCharList (x c : Char) (l : List Char)
    (h : c ∈ trimCharList x l) : c ∈ l := by
  unfold trimCharList at h
  rw [List.mem_reverse] at h
  have h2 := (List.dropWhile_sublist _).subset h
  rw [List.mem_reverse] at h2
  exact (List.dropWhile_sublist _).subset h2

theorem trimCharList_head? (x : Char) (l : List Char) (a : Char)
    (h : (trimCharList x l).head? = some a) : (a == x) = false := by
  unfold trimCharList at h
  rw [List.head?_reverse] at h
  rcases getLast?_dropWhile (fun y => y == x) (l.dropWhile (fun y => y == x)).reverse
    with hnil | heq
  · rw [hnil] at h
    simp at h
  · rw [heq, List.getLast?_reverse] at h
    exact head?_dropWhile_not (fun y => y == x) _ a h

theorem trimCharList_getLast? (x : Char) (l : List Char) (a : Char)
    (h : (trimCharList x l).getLast? = some a) : (a == x) = false := by
  unfold trimCharList at h
  rw [List.getLast?_reverse] at h
  exact head?_dropWhile_not (fun y => y == x) _ a h

theorem dropWhile_eq_self_of_head (p : Char → Bool) (l : List Char)
    (h : ∀ a, l.head? = some a → p a = false) : l.dropWhile p = l := by
  cases l with
  | nil => rfl
  | cons c rest =>
    rw [List.dropWhile_cons, if_neg (by simp [h c rfl])]

theorem mem_map_replaceChar (c : Char) (l : List Char)
    (h : c ∈ l.map replaceChar) : allowedChar c = true := by
  obtain ⟨a, _, rfl⟩ := List.mem_map.mp h
  unfold replaceChar
  by_cases ha : allowedChar a = true
  · rw [if_pos ha]; exact ha
  · rw [if_neg ha]; decide

theorem mem_sanitizeTruncated (s : String) (c : Char)
    (h : c ∈ sanitizeTruncated s) : c ∈ sanitizeCore s := by
  unfold sanitizeTruncated at h
  by_cases hl : (sanitizeCore s).length > 100
  · rw [if_pos hl] at h
    exact List.mem_of_mem_take h
  · rwa [if_neg hl] at h

/-- Every character of the sanitizer's output is in the class
`[a-zA-Z0-9\-_.]`. -/
theorem sanitizeFilename_chars (s : String) :
    ∀ c ∈ (sanitizeFilename s).data, allowedChar c = true := by
  intro c hc
  unfold sanitizeFilename at hc
  by_cases hnil : sanitizeTruncated s = []
  · rw [if_pos hnil] at hc
    fin_cases hc <;> decide
  · rw [if_neg hnil] at hc
    have h1 : c ∈ sanitizeCore s := mem_sanitizeTruncated s c hc
    exact mem_map_replaceChar c _ (mem_trimCharList '_' c _ h1)

/-- The sanitizer's output has at most 100 characters. -/
theorem sanitizeFilename_length (s : String) :
    (sanitizeFilename s).data.length ≤ 100 := by
  unfold sanitizeFilename
  by_cases hnil : sanitizeTruncated s = []
  · rw [if_pos hnil]; decide
  · rw [if_neg hnil]
    show (sanitizeTruncated s).length ≤ 100
    unfold sanitizeTruncated
    by_cases hl : (sanitizeCore s).length > 100
    · rw [if_pos hl, List.length_take]
      omega
    · rw [if_neg hl]
      omega

/-- When the replaced-and-trimmed string is empty the sanitizer returns the
fixed literal "file". -/
theorem sanitizeFilename_empty (s : String) (h : sanitizeCore s = []) :
    sanitizeFilename s = "file" := by
  unfold sanitizeFilename sanitizeTruncated
  rw [h]
  simp

/-- The sanitizer never returns the empty string. -/
theorem sanitizeFilename_ne_nil (s : String) : (sanitizeFilename s).data ≠ [] := by
  unfold sanitizeFilename
  by_cases hnil : sanitizeTruncated s = []
  · rw [if_pos hnil]; decide
  · rw [if_neg hnil]; exact hnil

theorem head?_take100 (l : List Char) : (l.take 100).head? = l.head? := by
  cases l with
  | nil => rfl
  | cons c rest => rfl

/-- The sanitizer's output never starts with '_'. -/
theorem sanitizeFilename_head (s : String) :
    (sanitizeFilename s).data.head? ≠ some '_' := by
  unfold sanitizeFilename
  by_cases hnil : sanitizeTruncated s = []
  · rw [if_pos hnil]; decide
  · rw [if_neg hnil]
    show (sanitizeTruncated s).head? ≠ some '_'
    have hh : (sanitizeTruncated s).head? = (sanitizeCore s).head? := by
      unfold sanitizeTruncated
      by_cases hl : (sanitizeCore s).length > 100
      · rw [if_pos hl]; exact head?_take100 _
      · rw [if_neg hl]
    rw [hh]
    intro h
    have := trimCharList_head? '_' _ _ h
    simp at this

/-- On a string whose characters are all in the class, which neither starts
nor ends with '_', is at most 100 characters long and is nonempty, the
sanitizer is the identity. -/
theorem sanitizeFilename_fixed (y : String)
    (hall : ∀ c ∈ y.data, allowedChar c = true)
    (hhead : y.data.head? ≠ some '_')
    (hlast : y.data.getLast? ≠ some '_')
    (hlen : y.data.length ≤ 100)
    (hne : y.data ≠ []) : sanitizeFilename y = y := by
  have hmap : y.data.map replaceChar = y.data := by
    have := List.map_congr_left (l := y.data) (f := replaceChar) (g := id)
      (fun a ha => by unfold replaceChar; rw [if_pos (hall a ha)]; rfl)
    rw [this, List.map_id]
  have hcore : sanitizeCore y = y.data := by
    unfold sanitizeCore trimCharList
    rw [hmap]
    have h1 : y.data.dropWhile (fun x => x == '_') = y.data := by
      apply dropWhile_eq_self_of_head
      intro a ha
      have : a ≠ '_' := fun hEq => hhead (hEq ▸ ha)
      simp [this]
    rw [h1]
    have h2 : y.data.reverse.dropWhile (fun x => x == '_') = y.data.reverse := by
      apply dropWhile_eq_self_of_head
      intro a ha
      rw [List.head?_reverse] at ha
      have : a ≠ '_' := fun hEq => hlast (hEq ▸ ha)
      simp [this]
    rw [h2, List.reverse_reverse]
  have htr : sanitizeTruncated y = y.data := by
    unfold sanitizeTruncated
    rw [hcore, if_neg (by omega)]
  unfold sanitizeFilename
  rw [htr, if_neg hne]

/-- Claim C3 (amended): `SanitizeFilename` is total - its output always
matches `[a-zA-Z0-9\-_.]*`, is at most 100 characters long, and equals the
fixed literal "file" when the input sanitizes to empty - and it is
idempotent on every input whose output does not end in '_' (truncation at
100 characters can leave a trailing '_', and a second application then
trims it, so idempotency does not hold unconditionally). -/
theorem sanitizeFilename_total (x : String) :
    (∀ c ∈ (sanitizeFilename x).data, allowedChar c = true)
    ∧ (sanitizeFilename x).data.length ≤ 100
    ∧ (sanitizeCore x = [] → sanitizeFilename x = "file")
    ∧ ((sanitizeFilename x).data.getLast? ≠ some '_' →
        sanitizeFilename (sanitizeFilename x) = sanitizeFilename x) := by
  refine ⟨sanitizeFilename_chars x, sanitizeFilename_length x,
    sanitizeFilename_empty x, ?_⟩
  intro hlast
  exact sanitizeFilename_fixed _ (sanitizeFilename_chars x)
    (sanitizeFilename_head x) hlast (sanitizeFilename_length x)
    (sanitizeFilename_ne_nil x)

/-- The input refuting unconditional idempotency: 99 'a's, then "_a_". Its
sanitized form is 99 'a's followed by '_' (the trim happens before the
truncation, which reintroduces a trailing '_'); sanitizing again drops that
'_'. -/
def c3Input : String :=
  String.mk (List.replicate 99 'a' ++ ['_', 'a', '_'])

/-- Claim C3 counterexample: `SanitizeFilename` is not idempotent - on
`c3Input` a second application changes the result again. -/
theorem sanitizeFilename_not_idempotent :
    sanitizeFilename (sanitizeFilename c3Input) ≠ sanitizeFilename c3Input := by
  decide

/-- Witness: the amended claim evaluated at the concrete input
"hello world!", whose sanitized form "hello_world" is a fixed point. -/
theorem sanitizeFilename_total_witness :
    sanitizeFilename (sanitizeFilename "hello world!") =
      sanitizeFilename "hello world!" :=
  (sanitizeFilename_total "hello world!").2.2.2 (by decide)

/-! ## Claim C7: the bearer-token middleware -/

/-- Claim C7: with authentication enabled, the middleware lets a request
through exactly when the Authorization header splits into two parts at its
first space, the first part is "bearer" up to ASCII case, and the digest of
the second part equals the configured digest (a case-sensitive string
comparison); every other request - no header, malformed scheme, mismatched
digest - is aborted with a 401 body whose error code is "unauthorized" and
never reaches the handler. -/
theorem authenticate_decides (hashKey : String → String) (cfg : AuthConfig)
    (hdr : String) (he : cfg.enabled = true) :
    (authenticate hashKey cfg hdr = .next ↔
      (∃ scheme tok, splitAuthHeader hdr = some (scheme, tok)
        ∧ asciiLowerStr scheme = "bearer" ∧ hashKey tok = cfg.apiKey))
    ∧ (authenticate hashKey cfg hdr = .next ∨
        ∃ m, authenticate hashKey cfg hdr = .abort401 "unauthorized" m) := by
  by_cases hempty : hdr = ""
  · have hD : authenticate hashKey cfg hdr =
        .abort401 "unauthorized" "Authorization header is required" := by
      simp [authenticate, he, hempty]
    rw [hD]
    refine ⟨⟨fun h => by simp at h, ?_⟩, Or.inr ⟨_, rfl⟩⟩
    rintro ⟨scheme, tok, hsplit, -, -⟩
    rw [hempty] at hsplit
    simp [splitAuthHeader, splitFirstSpace] at hsplit
  · cases hsp : splitAuthHeader hdr with
    | none =>
      have hD : authenticate hashKey cfg hdr =
          .abort401 "unauthorized"
            "Authorization header must be in format: Bearer <token>" := by
        simp [authenticate, he, hempty, hsp]
      rw [hD]
      refine ⟨⟨fun h => by simp at h, ?_⟩, Or.inr ⟨_, rfl⟩⟩
      rintro ⟨scheme, tok, hsplit, -, -⟩
      simp at hsplit
    | some p =>
      obtain ⟨scheme, tok⟩ := p
      by_cases hb : asciiLowerStr scheme = "bearer"
      · by_cases hk : hashKey tok = cfg.apiKey
        · have hD : authenticate hashKey cfg hdr = .next := by
            simp [authenticate, he, hempty, hsp, hb, hk]
          rw [hD]
          exact ⟨⟨fun _ => ⟨scheme, tok, rfl, hb, hk⟩, fun _ => rfl⟩, Or.inl rfl⟩
        · have hD : authenticate hashKey cfg hdr =
              .abort401 "unauthorized" "Invalid API key" := by
            simp [authenticate, he, hempty, hsp, hb, hk]
          rw [hD]
          refine ⟨⟨fun h => by simp at h, ?_⟩, Or.inr ⟨_, rfl⟩⟩
          rintro ⟨s2, t2, hsplit, -, hk2⟩
          simp only [Option.some.injEq, Prod.mk.injEq] at hsplit
          obtain ⟨-, rfl⟩ := hsplit
          exact absurd hk2 hk
      · have hD : authenticate hashKey cfg hdr =
            .abort401 "unauthorized"
              "Authorization header must be in format: Bearer <token>" := by
          simp [authenticate, he, hempty, hsp, hb]
        rw [hD]
        refine ⟨⟨fun h => by simp at h, ?_⟩, Or.inr ⟨_, rfl⟩⟩
        rintro ⟨s2, t2, hsplit, hb2, -⟩
        simp only [Option.some.injEq, Prod.mk.injEq] at hsplit
        obtain ⟨rfl, -⟩ := hsplit
        exact absurd hb2 hb

/-- Witness: a well-formed "Bearer secret" header whose digest matches the
configuration passes through the middleware. -/
theorem authenticate_decides_witness :
    authenticate (fun s => s) { enabled := true, apiKey := "secret" }
      "Bearer secret" = .next :=
  (authenticate_decides (fun s => s) { enabled := true, apiKey := "secret" }
      "Bearer secret" rfl).1.mpr
    ⟨"Bearer", "secret", by decide, by decide, rfl⟩

/-! ## Claim C4: process failure removes the unique directory -/

/-- Claim C4: whenever the unique directory was created and the external
yt-dlp process fails (non-zero exit or context cancellation), `DownloadVideo`
removes the directory and returns the download error - no partial artifacts
survive the failure path. -/
theorem downloadVideo_process_failure (parse : String → Option VideoInfo)
    (env : DownloadEnv) (hmk : env.mkdirOk = true) (hrun : env.runOk = false) :
    downloadVideo parse env =
      { result := .error "failed to download video", dirExists := false } := by
  unfold downloadVideo
  rw [hmk, hrun]
  simp

/-- Witness: a concrete environment in which the process fails. -/
theorem downloadVideo_process_failure_witness :
    downloadVideo (fun _ => none)
      { mkdirOk := true, runOk := false, readDirOk := true, entries := [],
        infoRead := none } =
      { result := .error "failed to download video", dirExists := false } :=
  downloadVideo_process_failure (fun _ => none) _ rfl rfl

/-! ## Claim C2 and C9: the directory scan after a successful run -/

theorem scanStep_fst (acc : String × String) (e : DirEntry) :
    (scanStep acc e).1 = if isJsonEntry e then e.name else acc.1 := by
  unfold scanStep isJsonEntry
  by_cases hj : filepathExt e.name = ".json"
  · rw [if_pos hj]
    simp [hj]
  · rw [if_neg hj]
    by_cases hd : e.isDir = false
    · rw [if_pos hd]
      simp [hj]
    · rw [if_neg hd]
      simp [hj]

theorem scanStep_snd (acc : String × String) (e : DirEntry) :
    (scanStep acc e).2 = if isMediaEntry e then e.name else acc.2 := by
  unfold scanStep isMediaEntry isJsonEntry
  by_cases hj : filepathExt e.name = ".json"
  · rw [if_pos hj]
    simp [hj]
  · rw [if_neg hj]
    by_cases hd : e.isDir = false
    · rw [if_pos hd]
      simp [hj, hd]
    · rw [if_neg hd]
      have hd' : e.isDir = true := by
        cases h : e.isDir
        · exact absurd h hd
        · rfl
      simp [hj, hd']

/-- The scan's loop keeps, for each of the two slots, the name of the last
matching entry (later iterations overwrite earlier ones). -/
theorem foldl_scanStep (entries : List DirEntry) :
    ∀ init : String × String,
      entries.foldl scanStep init =
        ((entries.reverse.find? isJsonEntry).elim init.1 DirEntry.name,
         (entries.reverse.find? isMediaEntry).elim init.2 DirEntry.name) := by
  induction entries with
  | nil => intro init; rfl
  | cons e rest ih =>
    intro init
    rw [List.foldl_cons, ih (scanStep init e), List.reverse_cons,
      List.find?_append, List.find?_append]
    cases hj : rest.reverse.find? isJsonEntry <;>
      cases hm : rest.reverse.find? isMediaEntry <;>
      cases hje : isJsonEntry e <;>
      cases hme : isMediaEntry e <;>
      simp_all [Option.or, scanStep_fst, scanStep_snd, List.find?_cons, hje, hme]

/-- The scan is the last-match selection over the entry list. -/
theorem scanFiles_eq (entries : List DirEntry) :
    scanFiles entries =
      ((entries.reverse.find? isJsonEntry).elim "" DirEntry.name,
       (entries.reverse.find? isMediaEntry).elim "" DirEntry.name) :=
  foldl_scanStep entries ("", "")

/-- Claim C2 (amended): after a successful external-tool run, the entry
recorded as the info sidecar is the LAST JSON-extension entry and the entry
recorded as the media file is the LAST non-directory, non-JSON entry (the
scan overwrites on every match); if no media entry exists, the directory is
removed and the call fails with the "file not found" download error. -/
theorem downloadVideo_scan_last (parse : String → Option VideoInfo)
    (env : DownloadEnv) (hmk : env.mkdirOk = true) (hrun : env.runOk = true)
    (hrd : env.readDirOk = true)
    (hnames : ∀ e ∈ env.entries, e.name ≠ "") :
    (env.entries.reverse.find? isMediaEntry = none →
      downloadVideo parse env =
        { result := .error "video file not found after download",
          dirExists := false })
    ∧ (∀ e, env.entries.reverse.find? isMediaEntry = some e →
        ∃ info, (downloadVideo parse env).result = .ok (e.name, info)
          ∧ (downloadVideo parse env).dirExists = true)
    ∧ (scanFiles env.entries).1 =
        (env.entries.reverse.find? isJsonEntry).elim "" DirEntry.name := by
  have hscan := scanFiles_eq env.entries
  refine ⟨?_, ?_, by rw [hscan]⟩
  · intro hnone
    have h2 : (scanFiles env.entries).2 = "" := by rw [hscan, hnone]; rfl
    unfold downloadVideo
    rw [hmk, hrun, hrd]
    simp [h2]
  · intro e he
    have h2 : (scanFiles env.entries).2 = e.name := by rw [hscan, he]; rfl
    have hne : (scanFiles env.entries).2 ≠ "" := by
      rw [h2]
      exact hnames e (List.mem_reverse.mp (List.mem_of_find?_eq_some he))
    refine ⟨if (scanFiles env.entries).1 = "" then none
      else
        match env.infoRead with
        | none => none
        | some data => parse data, ?_, ?_⟩
    · unfold downloadVideo
      rw [hmk, hrun, hrd]
      simp only [Bool.true_eq_false, if_false, if_neg hne]
      rw [h2]
    · unfold downloadVideo
      rw [hmk, hrun, hrd]
      simp only [Bool.true_eq_false, if_false, if_neg hne]

/-- The entry list refuting "the FIRST non-directory, non-JSON entry is the
media file": two media entries; the source's loop keeps the second. -/
def c2Entries : List DirEntry :=
  [{ name := "a.mp4", isDir := false }, { name := "b.mp4", isDir := false }]

/-- What the spec's sentence says the scan picks: the first non-directory,
non-JSON entry. Stated from the spec's words, for comparison with the
source's behaviour. -/
def firstMediaEntrySpec (entries : List DirEntry) : Option DirEntry :=
  entries.find? isMediaEntry

/-- Claim C2 counterexample: on a directory holding media entries "a.mp4"
then "b.mp4", the spec's "first non-directory, non-JSON entry" is "a.mp4",
but the source returns "b.mp4" - the scan keeps the last match, not the
first. -/
theorem downloadVideo_scan_first_counterexample :
    (firstMediaEntrySpec c2Entries).elim "" DirEntry.name = "a.mp4"
    ∧ (downloadVideo (fun _ => none)
        { mkdirOk := true, runOk := true, readDirOk := true,
          entries := c2Entries, infoRead := none }).result = .ok ("b.mp4", none)
    ∧ ("a.mp4" : String) ≠ "b.mp4" := by
  refine ⟨by decide, rfl, by decide⟩

/-- Witness: on a directory holding "a.mp4" then "b.mp4" the amended claim
applies - the media entry found is the last one and the directory is kept
for the caller. -/
theorem downloadVideo_scan_last_witness :
    (downloadVideo (fun _ => none)
      { mkdirOk := true, runOk := true, readDirOk := true,
        entries := c2Entries, infoRead := none }).dirExists = true := by
  obtain ⟨info, -, hdir⟩ :=
    (downloadVideo_scan_last (fun _ => none)
      { mkdirOk := true, runOk := true, readDirOk := true,
        entries := c2Entries, infoRead := none } rfl rfl rfl (by decide)).2.1
      { name := "b.mp4", isDir := false } (by decide)
  exact hdir

/-- Claim C9: after a successful run, a missing sidecar, an unreadable
sidecar and an unparsable sidecar are all tolerated - the call still
succeeds with the media file and an absent VideoInfo - whereas a missing
media file is fatal. -/
theorem downloadVideo_sidecar_tolerated (parse : String → Option VideoInfo)
    (env : DownloadEnv) (hmk : env.mkdirOk = true) (hrun : env.runOk = true)
    (hrd : env.readDirOk = true) :
    ((scanFiles env.entries).2 ≠ "" →
      (∃ info, (downloadVideo parse env).result =
          .ok ((scanFiles env.entries).2, info))
      ∧ (((scanFiles env.entries).1 = "" ∨ env.infoRead = none ∨
          (∃ d, env.infoRead = some d ∧ parse d = none)) →
          (downloadVideo parse env).result =
            .ok ((scanFiles env.entries).2, none)))
    ∧ ((scanFiles env.entries).2 = "" →
        (downloadVideo parse env).result =
          .error "video file not found after download") := by
  constructor
  · intro hne
    have hD : (downloadVideo parse env).result =
        .ok ((scanFiles env.entries).2,
          if (scanFiles env.entries).1 = "" then none
          else
            match env.infoRead with
            | none => none
            | some data => parse data) := by
      unfold downloadVideo
      rw [hmk, hrun, hrd]
      simp only [Bool.true_eq_false, if_false, if_neg hne]
    refine ⟨⟨_, hD⟩, ?_⟩
    rintro (h1 | h2 | ⟨d, hd, hparse⟩)
    · rw [hD, if_pos h1]
    · rw [hD]
      by_cases h1 : (scanFiles env.entries).1 = ""
      · rw [if_pos h1]
      · rw [if_neg h1, h2]
    · rw [hD]
      by_cases h1 : (scanFiles env.entries).1 = ""
      · rw [if_pos h1]
      · rw [if_neg h1, hd]
        simp [hparse]
  · intro h2
    unfold downloadVideo
    rw [hmk, hrun, hrd]
    simp [h2]

/-- Witness: a run that produced "v.json" (whose contents do not parse) and
"v.mp4" still succeeds, with the media file and no VideoInfo. -/
theorem downloadVideo_sidecar_tolerated_witness :
    (downloadVideo (fun _ => none)
      { mkdirOk := true, runOk := true, readDirOk := true,
        entries := [{ name := "v.json", isDir := false },
                    { name := "v.mp4", isDir := false }],
        infoRead := some "not json" }).result = .ok ("v.mp4", none) :=
  ((downloadVideo_sidecar_tolerated (fun _ => none)
      { mkdirOk := true, runOk := true, readDirOk := true,
        entries := [{ name := "v.json", isDir := false },
                    { name := "v.mp4", isDir := false }],
        infoRead := some "not json" } rfl rfl rfl).1 (by decide)).2
    (Or.inr (Or.inr ⟨"not json", rfl, rfl⟩))

/-! ## Claim C1 and C6: the two-object upload -/

/-- All the steps of `uploadFile` succeed. -/
def filePutOk (env : FilePutEnv) : Bool :=
  env.openOk && env.statOk && env.hashCopyOk && env.seekOk && env.putOk

/-- All the steps of `uploadMetadata` succeed. -/
def metaPutOk (env : MetaPutEnv) : Bool :=
  env.marshalOk && env.putOk

theorem mem_putKey_iff (st : Storage) (k x : String) :
    x ∈ putKey st k ↔ x = k ∨ x ∈ st := by
  unfold putKey
  by_cases h : k ∈ st
  · rw [if_pos h]
    constructor
    · exact Or.inr
    · rintro (rfl | hx)
      · exact h
      · exact hx
  · rw [if_neg h]
    simp [List.mem_cons]

@[simp] theorem not_mem_deleteKey (st : Storage) (k : String) :
    k ∉ deleteKey st k := by
  unfold deleteKey
  intro h
  have := (List.mem_filter.mp h).2
  simp at this

/-- Claim C1: a result comes back exactly when both objects were stored; a
metadata failure after a successful video upload surfaces the metadata
error (never a result) and, when the compensating delete succeeds, leaves
the video key absent; the delete's own outcome never changes what the
caller gets; and whenever the video key is present on return (for a key
that was fresh before the call, as the handler's unique keys are) the
metadata key is present with it - no orphaned video without metadata. -/
theorem uploadVideoWithMetadata_atomic (cfg : S3Config) (venv : FilePutEnv)
    (menv : MetaPutEnv) (delOk : Bool) (fp key : String)
    (vi : Option VideoInfo) (st : Storage) (now : Int)
    (hfresh : key ∉ st) :
    ((∃ r, (uploadVideoWithMetadata cfg venv menv delOk fp key vi st now).1 = .ok r) ↔
      (filePutOk venv = true ∧ metaPutOk menv = true))
    ∧ (filePutOk venv = true → metaPutOk menv = false →
        (∃ e, (uploadVideoWithMetadata cfg venv menv delOk fp key vi st now).1 =
            .error ("failed to upload metadata: " ++ e))
        ∧ (delOk = true →
            key ∉ (uploadVideoWithMetadata cfg venv menv delOk fp key vi st now).2))
    ∧ ((uploadVideoWithMetadata cfg venv menv true fp key vi st now).1 =
        (uploadVideoWithMetadata cfg venv menv false fp key vi st now).1)
    ∧ (delOk = true →
        key ∈ (uploadVideoWithMetadata cfg venv menv delOk fp key vi st now).2 →
        getMetadataKey key ∈
          (uploadVideoWithMetadata cfg venv menv delOk fp key vi st now).2) := by
  obtain ⟨vo, vs, vh, vk, vp, vsz, vmd, vet⟩ := venv
  obtain ⟨mm, mp, mlen, mmd, met⟩ := menv
  cases vo <;> cases vs <;> cases vh <;> cases vk <;> cases vp <;>
    cases mm <;> cases mp <;> cases delOk <;>
    simp_all [uploadVideoWithMetadata, uploadFile, uploadMetadata,
      filePutOk, metaPutOk, mem_putKey_iff] <;>
    first
      | exact ⟨"failed to marshal metadata", by decide⟩
      | exact ⟨"failed to upload metadata to S3-compatible storage", by decide⟩

/-- Witness for the atomicity claim: a concrete call in which the video
upload succeeds, the metadata put fails and the compensating delete
succeeds leaves the bucket without the video key. -/
theorem uploadVideoWithMetadata_atomic_witness :
    "k.mp4" ∉
      (uploadVideoWithMetadata
        { accessKeyID := "a", secretAccessKey := "s", region := "r",
          bucket := "b", endpoint := "http://e" }
        { openOk := true, statOk := true, hashCopyOk := true, seekOk := true,
          putOk := true, size := 10, md5Hex := "d", etagRaw := "\"t\"" }
        { marshalOk := true, putOk := false, jsonLen := 5, md5Hex := "m",
          etagRaw := "\"u\"" }
        true "v.mp4" "k.mp4" none [] 0).2 :=
  ((uploadVideoWithMetadata_atomic
      { accessKeyID := "a", secretAccessKey := "s", region := "r",
        bucket := "b", endpoint := "http://e" }
      { openOk := true, statOk := true, hashCopyOk := true, seekOk := true,
        putOk := true, size := 10, md5Hex := "d", etagRaw := "\"t\"" }
      { marshalOk := true, putOk := false, jsonLen := 5, md5Hex := "m",
        etagRaw := "\"u\"" }
      true "v.mp4" "k.mp4" none [] 0 (by decide)).2.1 rfl rfl).2 rfl

theorem wrap64_id (x : Int) (hlo : -(2 ^ 63) ≤ x) (hhi : x < 2 ^ 63) :
    wrap64 x = x := by
  unfold wrap64
  have h0 : 0 ≤ x + 2 ^ 63 := by omega
  have h1 : x + 2 ^ 63 < 2 ^ 64 := by omega
  rw [Int.emod_eq_of_lt h0 h1]
  omega

/-- Any result the upload returns records as its total size the (int64) sum
of the two per-object sizes. -/
theorem uploadVideoWithMetadata_ok (cfg : S3Config) (venv : FilePutEnv)
    (menv : MetaPutEnv) (delOk : Bool) (fp key : String)
    (vi : Option VideoInfo) (st : Storage) (now : Int) (r : UploadResult)
    (hok : (uploadVideoWithMetadata cfg venv menv delOk fp key vi st now).1 = .ok r) :
    r.totalSize = wrap64 (r.videoUpload.size + r.metadataUpload.size) := by
  obtain ⟨vo, vs, vh, vk, vp, vsz, vmd, vet⟩ := venv
  obtain ⟨mm, mp, mlen, mmd, met⟩ := menv
  cases vo <;> cases vs <;> cases vh <;> cases vk <;> cases vp <;>
    cases mm <;> cases mp <;>
    simp_all [uploadVideoWithMetadata, uploadFile, uploadMetadata]
  rw [← hok]

/-- Claim C6: for every successful `UploadVideoWithMetadata` call (with the
sizes in the int64 range they always inhabit - `stat.Size()` and a Go slice
length are non-negative), `total_size` equals the sum of the video result's
size and the metadata result's size. -/
theorem uploadVideoWithMetadata_totalSize (cfg : S3Config) (venv : FilePutEnv)
    (menv : MetaPutEnv) (delOk : Bool) (fp key : String)
    (vi : Option VideoInfo) (st : Storage) (now : Int) (r : UploadResult)
    (hok : (uploadVideoWithMetadata cfg venv menv delOk fp key vi st now).1 = .ok r)
    (h1 : 0 ≤ r.videoUpload.size) (h2 : 0 ≤ r.metadataUpload.size)
    (h3 : r.videoUpload.size + r.metadataUpload.size < 2 ^ 63) :
    r.totalSize = r.videoUpload.size + r.metadataUpload.size := by
  rw [uploadVideoWithMetadata_ok cfg venv menv delOk fp key vi st now r hok]
  exact wrap64_id _ (by omega) h3

/-- Witness: a concrete successful call whose video object is 10 bytes and
metadata object 5 bytes reports 15. -/
theorem uploadVideoWithMetadata_totalSize_witness :
    (uploadVideoWithMetadata
      { accessKeyID := "a", secretAccessKey := "s", region := "r",
        bucket := "b", endpoint := "http://e" }
      { openOk := true, statOk := true, hashCopyOk := true, seekOk := true,
        putOk := true, size := 10, md5Hex := "d", etagRaw := "\"t\"" }
      { marshalOk := true, putOk := true, jsonLen := 5, md5Hex := "m",
        etagRaw := "\"u\"" }
      true "v.mp4" "k.mp4" none [] 0).1 =
      .ok
        { videoUpload :=
            { key := "k.mp4", bucket := "b", location := "http://e/b/k.mp4",
              etag := "t", size := 10, contentType := "video/mp4",
              md5Hash := "d" }
          metadataUpload :=
            { key := "k.json", bucket := "b", location := "http://e/b/k.json",
              etag := "u", size := 5, contentType := "application/json",
              md5Hash := "m" }
          totalSize := 15
          uploadedAt := 0 }
    ∧ (15 : Int) = 10 + 5 := by
  constructor
  · rfl
  · exact uploadVideoWithMetadata_totalSize
      { accessKeyID := "a", secretAccessKey := "s", region := "r",
        bucket := "b", endpoint := "http://e" }
      { openOk := true, statOk := true, hashCopyOk := true, seekOk := true,
        putOk := true, size := 10, md5Hex := "d", etagRaw := "\"t\"" }
      { marshalOk := true, putOk := true, jsonLen := 5, md5Hex := "m",
        etagRaw := "\"u\"" }
      true "v.mp4" "k.mp4" none [] 0
      { videoUpload :=
          { key := "k.mp4", bucket := "b", location := "http://e/b/k.mp4",
            etag := "t", size := 10, contentType := "video/mp4",
            md5Hash := "d" }
        metadataUpload :=
          { key := "k.json", bucket := "b", location := "http://e/b/k.json",
            etag := "u", size := 5, contentType := "application/json",
            md5Hash := "m" }
        totalSize := 15
        uploadedAt := 0 }
      rfl (by decide) (by decide) (by decide)

/-! ## Claim C8: the unique storage key -/

/-- Claim C8 (amended): the effective video storage key is built by
sanitizing the requested key (after giving it the downloaded file's
extension when it has none) and PREPENDING the timestamp and the random
component: the key is `<timestamp>_<random>_<tail>` where the tail is drawn
from the sanitizer's output (and so matches `[a-zA-Z0-9\-_.]*`); the
timestamp and random part are a prefix, not a suffix. -/
theorem generateUniqueS3Key_shape (ts : Int) (rnd : String)
    (rk fp : String) :
    ∃ tail : String,
      generateUniqueS3Key ts rnd rk fp =
        toString ts ++ "_" ++ rnd ++ "_" ++ tail
      ∧ (∀ c ∈ tail.data, allowedChar c = true) := by
  refine ⟨sanitizeFilename (trimSuffixStr
      (sanitizeFilename (if filepathExt rk = "" then rk ++ filepathExt fp else rk))
      (filepathExt (sanitizeFilename
        (if filepathExt rk = "" then rk ++ filepathExt fp else rk)))) ++
      filepathExt (sanitizeFilename
        (if filepathExt rk = "" then rk ++ filepathExt fp else rk)), ?_, ?_⟩
  · show toString ts ++ "_" ++ rnd ++ "_" ++
        sanitizeFilename (trimSuffixStr _ _) ++ filepathExt _ = _
    rw [String.append_assoc (toString ts ++ "_" ++ rnd ++ "_")]
  · intro c hc
    rw [String.data_append] at hc
    rcases List.mem_append.mp hc with h | h
    · exact sanitizeFilename_chars _ c h
    · obtain ⟨pre, hpre⟩ := filepathExt_suffix
        (sanitizeFilename (if filepathExt rk = "" then rk ++ filepathExt fp else rk))
      exact sanitizeFilename_chars _ c
        (hpre ▸ List.mem_append_right pre h)

/-- Claim C8 counterexample: the timestamp and random part are not appended
after the sanitized key - the generated key does not even begin with the
sanitized requested key, so it is not the sanitized key followed by any
suffix. -/
theorem generateUniqueS3Key_not_suffix :
    ¬ ∃ suffix : String,
        generateUniqueS3Key 1 "aabbccdd" "video.mp4" "video.mp4" =
          sanitizeFilename "video.mp4" ++ suffix := by
  rintro ⟨suffix, h⟩
  have hg : generateUniqueS3Key 1 "aabbccdd" "video.mp4" "video.mp4" =
      "1_aabbccdd_video.mp4" := by decide
  have hs : sanitizeFilename "video.mp4" = "video.mp4" := by decide
  rw [hg, hs] at h
  have hTake : (("video.mp4" ++ suffix).data).take ("video.mp4".data.length) =
      "video.mp4".data := by
    rw [String.data_append]
    exact List.take_left _ _
  rw [← h] at hTake
  have hno : ¬ (("1_aabbccdd_video.mp4").data.take ("video.mp4".data.length) =
      "video.mp4".data) := by decide
  exact hno hTake
